/-
Verification of the Civix hybrid decision pipeline.

Shallow embedding of:
  * the rules engine (`RulesEngine.evaluateCondition`, `evaluateConditionGroup`,
    `evaluateRule`, `determineOutcome`),
  * the provider gateway (`callAI`, `getFallbackProvider`),
  * the matcher (`detectJurisdiction`, `matchCategory`, `extractInputs`),
  * the conversation orchestrator (`processMessage`, `processWithJurisdiction`,
    `collectInputs`, `evaluateAndRespond`, `loadConversation`).

JavaScript runtime values are modelled by `JSValue`; the JS number type is
modelled by `Option ℚ` where `none` plays the role of `NaN` (every comparison
against `none` is false, as for `NaN`).  Nondeterministic external effects
(provider backends, the database) are modelled as explicit oracle parameters.
-/
import Mathlib

namespace Civix

/-! ## JavaScript value model -/

/-- A JSON-like JavaScript runtime value.  `undef` is JavaScript `undefined`
(the result of reading an absent object property). Numbers are modelled by ℚ. -/
inductive JSValue where
  | null : JSValue
  | undef : JSValue
  | bool (b : Bool) : JSValue
  | num (q : ℚ) : JSValue
  | str (s : String) : JSValue
  | arr (elems : List JSValue) : JSValue

/-- A JavaScript object with string keys, as produced by `JSON.parse`.
Later bindings shadow earlier ones on lookup, as in a JS object literal. -/
abbrev JSRecord := List (String × JSValue)

/-- Property read `r[k]`: the last binding of `k` wins (JS object semantics). -/
def jsLookup (r : JSRecord) (k : String) : Option JSValue :=
  (r.reverse.find? (fun kv => kv.1 == k)).map (·.2)

/-- The JS `k in r` test: key presence. -/
def jsHas (r : JSRecord) (k : String) : Bool :=
  r.any (fun kv => kv.1 == k)

/-- The JS spread merge `\x7b ...a, ...b \x7d`: on lookup, keys of `b` win. -/
def spreadMerge (a b : JSRecord) : JSRecord := a ++ b

/-- JS `String.prototype.trim` (whitespace at both ends removed). -/
def jsTrim (s : String) : String :=
  ⟨(((s.toList.dropWhile Char.isWhitespace).reverse.dropWhile Char.isWhitespace).reverse)⟩

/-- Whether the string contains the given character (JS `includes` on one
character). -/
def strContainsChar (s : String) (c : Char) : Bool :=
  s.toList.any (fun a => a == c)

/-- JS `String.prototype.toLowerCase` on the ASCII fragment. -/
def jsToLower (s : String) : String :=
  ⟨s.toList.map Char.toLower⟩

/-- Numeric value of a digit string (empty string counts as 0, as in JS where
the strings "12." and ".5" parse to 12 and 0.5). -/
def digitsVal (cs : List Char) : ℕ :=
  cs.foldl (fun acc c => 10 * acc + (c.toNat - '0'.toNat)) 0

/-- JS `Number(string)` on the decimal fragment: optional sign, integer part,
optional fractional part; whitespace trimmed; the empty string is 0; anything
else (we omit hex/exponent forms, which the repository never stores) is `NaN`,
i.e. `none`. -/
def strToNumber (s : String) : Option ℚ :=
  let cs := (jsTrim s).toList
  if cs.isEmpty then some 0
  else
    let signed : ℤ × List Char :=
      match cs with
      | '-' :: t => (-1, t)
      | '+' :: t => (1, t)
      | _ => (1, cs)
    let intPart := signed.2.takeWhile Char.isDigit
    let rest := signed.2.dropWhile Char.isDigit
    match rest with
    | [] => if intPart.isEmpty then none else some (signed.1 * digitsVal intPart)
    | '.' :: frac =>
      if frac.all Char.isDigit ∧ ¬ (intPart.isEmpty ∧ frac.isEmpty) then
        some (signed.1 * ((digitsVal intPart : ℚ) + digitsVal frac / (10 : ℚ) ^ frac.length))
      else none
    | _ => none

/-- Decimal digits of the fractional part `num/den`, `fuel` digits at most
(exact for the terminating decimals that occur in practice). -/
def fracDigits (fuel : Nat) (num den : ℕ) : String :=
  match fuel with
  | 0 => ""
  | fuel + 1 =>
    if num = 0 ∨ den = 0 then ""
    else
      let d := (num * 10) / den
      toString d ++ fracDigits fuel (num * 10 % den) den

/-- Rendering of a rational as a JS number string (integers exactly;
non-integers via decimal expansion, exact when the decimal terminates). -/
def ratToString (q : ℚ) : String :=
  if q.den = 1 then toString q.num
  else
    let sign := if q < 0 then "-" else ""
    let a := |q|
    let ip := a.num.toNat / a.den
    sign ++ toString ip ++ "." ++ fracDigits 20 (a.num.toNat % a.den) a.den

mutual
/-- JS `String(v)` coercion. -/
def jsToString : JSValue → String
  | .null => "null"
  | .undef => "undefined"
  | .bool b => if b then "true" else "false"
  | .num q => ratToString q
  | .str s => s
  | .arr l => String.intercalate "," (jsElemStrings l)

/-- Array elements as rendered by JS `Array.prototype.join`: `null` and
`undefined` elements render as the empty string. -/
def jsElemStrings : List JSValue → List String
  | [] => []
  | v :: vs =>
    (match v with
     | .null => ""
     | .undef => ""
     | v => jsToString v) :: jsElemStrings vs
end

/-- JS `Number(v)` coercion; `none` is `NaN`. -/
def toNumber : JSValue → Option ℚ
  | .null => some 0
  | .undef => none
  | .bool b => some (if b then 1 else 0)
  | .num q => some q
  | .str s => strToNumber s
  | .arr l => strToNumber (jsToString (.arr l))

/-- JS strict equality `===` between a value read from the input record and a
value stored in a rule.  The two sides always originate from distinct objects,
so two arrays are never `===` (reference equality); primitives compare
structurally. -/
def jsStrictEq : JSValue → JSValue → Bool
  | .null, .null => true
  | .undef, .undef => true
  | .bool a, .bool b => a == b
  | .num a, .num b => a == b
  | .str a, .str b => a == b
  | _, _ => false

/-- JS `String.prototype.includes`: substring containment (true for the
empty needle). -/
def strIncludes (hay needle : String) : Bool :=
  hay.toList.tails.any (fun t => needle.toList.isPrefixOf t)

/-- Anchored regular-expression match on the basic fragment (literal
characters, the `.` wildcard, postfix `*`); models JS `RegExp` far enough for
the rule patterns the repository stores.  No claim exercises this branch. -/
def reMatch : List Char → List Char → Bool
  | [], _ => true
  | p :: '*' :: ps, t =>
    reMatch ps t ||
      (match t with
       | [] => false
       | c :: cs => (p == '.' || p == c) && reMatch (p :: '*' :: ps) cs)
  | p :: ps, c :: cs => (p == '.' || p == c) && reMatch ps cs
  | _ :: _, [] => false
  termination_by p t => (t.length, p.length)

/-- Unanchored search, as JS `RegExp.prototype.test`. -/
def regexTest (pattern s : String) : Bool :=
  (s.toList.tails).any (fun t => reMatch pattern.toList t)

/-- Pattern string of `new RegExp(v)`: `undefined` gives the empty pattern,
anything else its string coercion. -/
def regexPatternOf : JSValue → String
  | .undef => ""
  | v => jsToString v

/-! ## Rules engine (`src/lib/rules/engine.ts`) -/

/-- A leaf condition of a rule: field name, operator name, expected value,
optional failure message. -/
structure RuleCondition where
  field : String
  operator : String
  value : JSValue
  message : Option String

/-- A child of a `ConditionGroup`: either a single condition or a nested
group (in the source the two are discriminated by the presence of a `type`
property, which only groups have). -/
inductive Check where
  | cond (c : RuleCondition) : Check
  | group (t : String) (checks : List Check) : Check

/-- A condition group: a combinator string (the source compares it against
the literal `"all"`; any other value behaves as `"any"`) over its children. -/
structure ConditionGroupS where
  type : String
  checks : List Check

/-- The fixed outcome enumeration. -/
inductive RuleOutcome where
  | ALLOWED | CONDITIONAL | RESTRICTED | PROHIBITED
  deriving Repr, DecidableEq

/-- A stored rule, as consumed by `RulesEngine.evaluateRule`. -/
structure Rule where
  key : String
  description : String
  outcome : RuleOutcome
  conditions : ConditionGroupS
  citation : Option String
  priority : Int

/-- Result of `RulesEngine.evaluateCondition`. -/
structure CondResult where
  passed : Bool
  message : Option String

/-- Result of `RulesEngine.evaluateConditionGroup`. -/
structure GroupResult where
  passed : Bool
  failedConditions : List String
  passedConditions : List String

/-- Result of `RulesEngine.evaluateRule`. -/
structure RuleEvaluationResult where
  outcome : RuleOutcome
  matched : Bool
  failedConditions : List String
  passedConditions : List String
  ruleKey : String
  description : String
  citation : Option String

/-- JS `a > b` on coerced numbers; any `NaN` operand makes it false. -/
def numGT : Option ℚ → Option ℚ → Bool
  | some a, some b => decide (a > b)
  | _, _ => false

/-- JS `a < b` on coerced numbers; any `NaN` operand makes it false. -/
def numLT : Option ℚ → Option ℚ → Bool
  | some a, some b => decide (a < b)
  | _, _ => false

/-- `RulesEngine.evaluateCondition`: evaluates one condition against the
inputs.  The `default` branch of the source's `switch` throws on an unknown
operator, modelled by `Except.error`. -/
def evaluateCondition (condition : RuleCondition) (inputs : JSRecord) :
    Except String CondResult :=
  let fieldValue := (jsLookup inputs condition.field).getD .undef
  let operator := condition.operator
  let value := condition.value
  let mk := fun (passed : Bool) =>
    Except.ok { passed := passed, message := condition.message }
  if operator = "equals" then mk (jsStrictEq fieldValue value)
  else if operator = "notEquals" then mk (! jsStrictEq fieldValue value)
  else if operator = "greaterThan" then mk (numGT (toNumber fieldValue) (toNumber value))
  else if operator = "lessThan" then mk (numLT (toNumber fieldValue) (toNumber value))
  else if operator = "in" then
    mk (match value with
        | .arr l => l.any (fun v => jsStrictEq v fieldValue)
        | _ => false)
  else if operator = "notIn" then
    mk (match value with
        | .arr l => ! l.any (fun v => jsStrictEq v fieldValue)
        | _ => false)
  else if operator = "contains" then
    mk (strIncludes (jsToLower (jsToString fieldValue)) (jsToLower (jsToString value)))
  else if operator = "regex" then
    mk (regexTest (regexPatternOf value) (jsToString fieldValue))
  else Except.error ("Unknown operator: " ++ operator)

/-- The message recorded for a condition result: its own message if present
and non-empty (JS `||` treats the empty string as falsy), otherwise the
template `field operator value`. -/
def condMessage (check : RuleCondition) (r : CondResult) : String :=
  match r.message with
  | some m => if m = "" then check.field ++ " " ++ check.operator ++ " " ++ jsToString check.value else m
  | none => check.field ++ " " ++ check.operator ++ " " ++ jsToString check.value

/-- The loop body of `RulesEngine.evaluateConditionGroup`: walks the checks
in order, accumulating flattened (failed, passed) message lists.  For a nested
group the source recurses and appends the nested group's two message lists —
the nested group's own `passed` flag (a function of those same two lists) is
discarded by the caller, so the recursion is written directly on the lists. -/
def evalChecks (inputs : JSRecord) : List Check → Except String (List String × List String)
  | [] => Except.ok ([], [])
  | .cond rc :: rest => do
    let r ← evaluateCondition rc inputs
    let (f, p) ← evalChecks inputs rest
    if r.passed then
      Except.ok (f, condMessage rc r :: p)
    else
      Except.ok (condMessage rc r :: f, p)
  | .group _t cs :: rest => do
    let (nf, np) ← evalChecks inputs cs
    let (f, p) ← evalChecks inputs rest
    Except.ok (nf ++ f, np ++ p)

/-- `RulesEngine.evaluateConditionGroup`: an `"all"` group passes iff the
flattened failed list is empty, any other combinator (i.e. `"any"`) passes
iff the flattened passed list is non-empty. -/
def evaluateConditionGroup (t : String) (checks : List Check) (inputs : JSRecord) :
    Except String GroupResult := do
  let (f, p) ← evalChecks inputs checks
  Except.ok
    { passed := if t = "all" then f.isEmpty else ! p.isEmpty
      failedConditions := f
      passedConditions := p }

/-- `RulesEngine.evaluateRule`. -/
def evaluateRule (rule : Rule) (inputs : JSRecord) : Except String RuleEvaluationResult := do
  let r ← evaluateConditionGroup rule.conditions.type rule.conditions.checks inputs
  Except.ok
    { outcome := rule.outcome
      matched := r.passed
      failedConditions := r.failedConditions
      passedConditions := r.passedConditions
      ruleKey := rule.key
      description := rule.description
      citation := rule.citation }

/-- `RulesEngine.determineOutcome`: most restrictive outcome among matched
results, `ALLOWED` when nothing matched. -/
def determineOutcome (results : List RuleEvaluationResult) : RuleOutcome :=
  let matchedResults := results.filter (·.matched)
  if matchedResults.isEmpty then .ALLOWED
  else if matchedResults.any (fun r => r.outcome == .PROHIBITED) then .PROHIBITED
  else if matchedResults.any (fun r => r.outcome == .RESTRICTED) then .RESTRICTED
  else if matchedResults.any (fun r => r.outcome == .CONDITIONAL) then .CONDITIONAL
  else .ALLOWED

/-- Severity rank of an outcome under the fixed total order
Prohibited > Restricted > Conditional > Allowed (spec §4.1). -/
def severity : RuleOutcome → ℕ
  | .ALLOWED => 0
  | .CONDITIONAL => 1
  | .RESTRICTED => 2
  | .PROHIBITED => 3

/-- Modelled from the spec (claim C1): pass/fail of each child of a group, in
order; a nested group contributes one Boolean, its own recursive `ALL`/`ANY`
pass/fail result. -/
def specChildSat (inputs : JSRecord) : List Check → Except String (List Bool)
  | [] => Except.ok []
  | .cond rc :: rest => do
    let r ← evaluateCondition rc inputs
    let bs ← specChildSat inputs rest
    Except.ok (r.passed :: bs)
  | .group t cs :: rest => do
    let bs0 ← specChildSat inputs cs
    let b := if t = "all" then bs0.all id else bs0.any id
    let bs ← specChildSat inputs rest
    Except.ok (b :: bs)

/-- Modelled from the spec (claim C1): recursive `ALL`/`ANY` satisfaction of a
condition group, in which a nested group contributes to its parent as a single
child via its own pass/fail result.  This is the semantics the spec asserts;
it is compared against `evaluateConditionGroup`, which flattens instead. -/
def specGroupSat (inputs : JSRecord) (t : String) (checks : List Check) :
    Except String Bool := do
  let childResults ← specChildSat inputs checks
  Except.ok (if t = "all" then childResults.all id else childResults.any id)

/-- The leaf conditions of a check list, flattened in document order. -/
def leavesOf : List Check → List RuleCondition
  | [] => []
  | .cond rc :: rest => rc :: leavesOf rest
  | .group _ cs :: rest => leavesOf cs ++ leavesOf rest

/-! ## Provider gateway (`src/lib/ai/providers.ts`) -/

/-- The three interchangeable completion backends. -/
inductive Provider where
  | gemini | anthropic | openai
  deriving Repr, DecidableEq

/-- Process-wide gateway configuration: which backend clients were
initialised (an API key was present), the default provider, and the
`AI_FALLBACK_ENABLED` flag. -/
structure AIConfig where
  geminiConfigured : Bool
  anthropicConfigured : Bool
  openaiConfigured : Bool
  primary : Provider
  fallbackEnabled : Bool

/-- Whether the given backend client is initialised. -/
def AIConfig.configured (cfg : AIConfig) : Provider → Bool
  | .gemini => cfg.geminiConfigured
  | .anthropic => cfg.anthropicConfigured
  | .openai => cfg.openaiConfigured

/-- Errors a gateway call can throw: a missing-API-key guard inside
`callGemini`/`callClaude`/`callOpenAI`, or an error raised by the backend. -/
inductive AIError where
  | notConfigured (p : Provider)
  | external (msg : String)
  deriving Repr, DecidableEq

/-- Normalised gateway response: completion text, the identity of the backend
that produced it, and its token usage. -/
structure AIResponse where
  content : String
  provider : Provider
  tokensUsed : Option ℕ

/-- Black-box behaviour of the backends on this logical call: for each
provider, either the raised error or the returned (text, tokens). -/
def ProviderOracle := Provider → Except String (String × Option ℕ)

/-- One provider-specific call (`callGemini`/`callClaude`/`callOpenAI`):
throws if the client is not configured, otherwise behaves as the backend
does; a successful response carries the callee's own identity. -/
def callProvider (cfg : AIConfig) (oracle : ProviderOracle) (p : Provider) :
    Except AIError AIResponse :=
  if ¬ cfg.configured p then .error (.notConfigured p)
  else
    match oracle p with
    | .error e => .error (.external e)
    | .ok (text, toks) => .ok { content := text, provider := p, tokensUsed := toks }

/-- `getFallbackProvider`: fallback priority gemini → anthropic → openai,
skipping to the remaining provider when the preferred alternate has no
client; the returned provider itself may still be unconfigured. -/
def getFallbackProvider (cfg : AIConfig) : Provider → Provider
  | .gemini => if cfg.anthropicConfigured then .anthropic else .openai
  | .anthropic => if cfg.geminiConfigured then .gemini else .openai
  | .openai => if cfg.geminiConfigured then .gemini else .anthropic

/-- `callAI`: uses the hinted provider, or the configured primary when no
hint is given; on a failure it falls back exactly when fallback is enabled
and no explicit hint was passed, re-entering itself with the fallback
provider as an explicit hint (so the fallback call itself never falls back
again). -/
def callAI (cfg : AIConfig) (oracle : ProviderOracle) (hint : Option Provider) :
    Except AIError AIResponse :=
  let provider := hint.getD cfg.primary
  match callProvider cfg oracle provider with
  | .ok r => .ok r
  | .error e =>
    if cfg.fallbackEnabled ∧ hint = none then
      callAI cfg oracle (some (getFallbackProvider cfg provider))
    else .error e
  termination_by (match hint with | none => 1 | some _ => 0)
  decreasing_by simp_all

/-- The providers on which `callAI` invokes a provider-specific call, in
order, for the same configuration and oracle. -/
def callAITried (cfg : AIConfig) (oracle : ProviderOracle) (hint : Option Provider) :
    List Provider :=
  let provider := hint.getD cfg.primary
  match callProvider cfg oracle provider with
  | .ok _ => [provider]
  | .error _ =>
    if cfg.fallbackEnabled ∧ hint = none then
      provider :: callAITried cfg oracle (some (getFallbackProvider cfg provider))
    else [provider]
  termination_by (match hint with | none => 1 | some _ => 0)
  decreasing_by simp_all

/-! ## Intent and slot matcher (`src/lib/ai/matcher.ts`)

The gateway completion text reaching each matcher function is a parameter
(the gateway itself is verified separately above); database reads are
parameters holding the records the queries return. -/

/-- A stored jurisdiction record. -/
structure Jurisdiction where
  name : String

/-- `detectJurisdiction`, from the completion text onwards: trim; the
sentinel `UNKNOWN` or any text without a comma is "not found" before any
store lookup; otherwise a case-insensitive exact-name lookup, returning the
stored spelling. -/
def detectJurisdiction (content : String) (store : List Jurisdiction) : Option String :=
  let jurisdiction := jsTrim content
  if jurisdiction = "UNKNOWN" ∨ ¬ strContainsChar jurisdiction ',' then none
  else
    match store.find? (fun j => jsToLower j.name == jsToLower jurisdiction) with
    | some j => some j.name
    | none => none

/-- The rule fields selected by `matchCategory`'s ruleset query. -/
structure RuleInfo where
  category : String
  subcategory : Option String
  canonicalQuestions : List String
  keywords : List String
  requiredInputs : List String
  key : String

/-- An active ruleset of the queried jurisdiction, with its selected rules. -/
structure Ruleset where
  category : String
  rules : List RuleInfo

/-- One entry of the parsed completion JSON array. -/
structure RawMatch where
  category : String
  subcategory : Option String
  confidence : ℚ

/-- An enriched category match. -/
structure RuleMatch where
  category : String
  subcategory : Option String
  confidence : ℚ
  requiredInputs : List String
  canonicalQuestion : String
  ruleKeys : List String

/-- JS `a || b` on an optional string: an absent or empty string is falsy. -/
def optOr (o : Option String) (d : String) : String :=
  match o with
  | some s => if s = "" then d else s
  | none => d

/-- The rule filter `!match.subcategory || r.subcategory === match.subcategory`
(an absent or empty match subcategory is falsy and accepts every rule). -/
def subcatMatches (msub : Option String) (r : RuleInfo) : Bool :=
  match msub with
  | none => true
  | some s => if s = "" then true else r.subcategory == some s

/-- Insertion into a JS `Set`: first occurrence kept, insertion order
preserved. -/
def insertUnique (acc : List String) (x : String) : List String :=
  if x ∈ acc then acc else acc ++ [x]

/-- The loop body of `matchCategory`: one parsed completion entry is kept iff
its confidence is at least 0.5 and some rule of the first active ruleset with
its category matches its subcategory; `requiredInputs` is the `Set`-deduped
union over those rules, `ruleKeys` their keys. -/
def enrichMatch (rulesets : List Ruleset) (m : RawMatch) : Option RuleMatch :=
  if m.confidence < (0.5 : ℚ) then none
  else
    match rulesets.find? (fun rs => rs.category == m.category) with
    | none => none
    | some rs =>
      let matchingRules := rs.rules.filter (subcatMatches m.subcategory)
      if matchingRules.isEmpty then none
      else
        some
          { category := m.category
            subcategory := m.subcategory
            confidence := m.confidence
            requiredInputs :=
              ((matchingRules.map (·.requiredInputs)).flatten).foldl insertUnique []
            canonicalQuestion :=
              optOr (matchingRules.head? >>= fun r => r.canonicalQuestions.head?)
                (optOr m.subcategory m.category)
            ruleKeys := matchingRules.map (·.key) }

/-- All kept matches, in completion order. -/
def enrichMatches (rulesets : List Ruleset) (ms : List RawMatch) : List RuleMatch :=
  ms.filterMap (enrichMatch rulesets)

/-- Stable descending insertion by confidence: the inserted element goes
before the first element whose confidence is not greater, so earlier entries
stay first among equals — the behaviour of the source's stable
`sort((a, b) => b.confidence - a.confidence)`. -/
def insertByConf (m : RuleMatch) : List RuleMatch → List RuleMatch
  | [] => [m]
  | x :: xs => if x.confidence > m.confidence then x :: insertByConf m xs else m :: x :: xs

/-- Stable sort by descending confidence. -/
def sortByConfDesc : List RuleMatch → List RuleMatch
  | [] => []
  | x :: xs => insertByConf x (sortByConfDesc xs)

/-- `matchCategory`, from the ruleset query and the parsed completion JSON
onwards (`parsed = none` models an unparsable completion, which returns the
empty list): enrichment then the stable descending sort. -/
def matchCategory (rulesets : List Ruleset) (parsed : Option (List RawMatch)) :
    List RuleMatch :=
  if rulesets.isEmpty then []
  else
    match parsed with
    | none => []
    | some ms => sortByConfDesc (enrichMatches rulesets ms)

/-- `extractInputs`, from the parsed completion JSON onwards: the parsed
object as-is (no filtering against the requested field list); an unparsable
completion degrades to the empty object. -/
def extractInputs (parsed : Option JSRecord) : JSRecord :=
  parsed.getD []

/-! ## Conversation orchestrator (`src/lib/ai/conversation.ts`)

One turn is a pure function of the in-memory context, the persisted
conversation row, and a `TurnFx` record describing what each external call
(provider-backed matcher call or database write) does during this turn.
A thrown JS error is `Except.error`; a throw aborts the turn, so the
in-memory context accumulated before it is discarded with it. -/

/-- Conversation lifecycle status. -/
inductive ConvStatus where
  | active | completed | abandoned
  deriving Repr, DecidableEq

/-- Transcript message role. -/
inductive MsgRole where
  | user | assistant
  deriving Repr, DecidableEq

/-- A transcript message. -/
structure Msg where
  role : MsgRole
  content : String

/-- The in-memory `ConversationContext`. -/
structure ConversationContext where
  jurisdiction : Option String
  category : Option String
  subcategory : Option String
  collectedInputs : JSRecord
  requiredInputs : List String
  messages : List Msg
  status : ConvStatus

/-- The persisted side: the conversation row, its message rows, and the
number of decision records written. -/
structure DBState where
  status : ConvStatus
  jurisdiction : Option String
  category : Option String
  subcategory : Option String
  collectedInputs : JSRecord
  messages : List Msg
  decisionCount : ℕ

/-- Result of the evaluation bridge `evaluateRules`. -/
structure BridgeResult where
  outcome : RuleOutcome
  rationale : String
  citations : List String

/-- Response types of `ConversationResponse`. -/
inductive RespType where
  | question | clarification | result | error
  deriving Repr, DecidableEq

/-- The orchestrator's response shape. -/
structure ConversationResponse where
  rtype : RespType
  message : String
  options : List String
  outcome : Option RuleOutcome
  rationale : Option String

/-- Behaviour of each external call during one turn: the bridge, the three
database writes, and the four matcher results (each already composed with the
gateway; `Except.error` is a thrown error, which the orchestrator does not
catch outside `evaluateAndRespond`). -/
structure TurnFx where
  evalRules : Except String BridgeResult
  update : Except String Unit
  decisionCreate : Except String Unit
  saveMsg : Except String Unit
  detect : Except String (Option String)
  matchCat : Except String (List RuleMatch)
  extract : Except String (Option JSRecord)
  clarify : Except String String

/-- `saveMessage`: persist one transcript message. -/
def saveMessageFx (fx : TurnFx) (db : DBState) (m : Msg) : Except String DBState :=
  match fx.saveMsg with
  | .error e => .error e
  | .ok _ => .ok { db with messages := db.messages ++ [m] }

/-- `saveAssistantMessage`: push to the in-memory transcript, then persist. -/
def saveAssistantMessageFx (fx : TurnFx) (ctx : ConversationContext) (db : DBState)
    (content : String) : Except String (ConversationContext × DBState) :=
  let m : Msg := ⟨.assistant, content⟩
  let ctx := { ctx with messages := ctx.messages ++ [m] }
  match saveMessageFx fx db m with
  | .error e => .error e
  | .ok db => .ok (ctx, db)

/-- `updateConversation`: persist the context's resolution fields and status. -/
def updateConversationFx (fx : TurnFx) (ctx : ConversationContext) (db : DBState) :
    Except String DBState :=
  match fx.update with
  | .error e => .error e
  | .ok _ =>
    .ok { db with
          status := ctx.status
          jurisdiction := ctx.jurisdiction
          category := ctx.category
          subcategory := ctx.subcategory
          collectedInputs := ctx.collectedInputs }

/-- Display name of an outcome, as interpolated into the result message. -/
def outcomeName : RuleOutcome → String
  | .ALLOWED => "ALLOWED"
  | .CONDITIONAL => "CONDITIONAL"
  | .RESTRICTED => "RESTRICTED"
  | .PROHIBITED => "PROHIBITED"

/-- `formatResultMessage`. -/
def formatResultMessage (outcome : RuleOutcome) (rationale : String) : String :=
  let emoji :=
    match outcome with
    | .ALLOWED => "✅"
    | .PROHIBITED => "❌"
    | .CONDITIONAL => "⚠️"
    | .RESTRICTED => "⚠️"
  emoji ++ " **" ++ outcomeName outcome ++ "**\n\n" ++ rationale

/-- The constant user-facing message of the evaluation `catch` block; it never
embeds the caught error. -/
def evalErrorMessage : String :=
  "I encountered an error evaluating the rules. Please try again or contact support."

/-- The `try` block of `evaluateAndRespond`: bridge call, then the
status-`completed` mutation, the conversation update, the decision write and
the assistant-message save, in source order.  A failure anywhere returns the
context and store as mutated so far, which the `catch` block continues from. -/
def evaluateAndRespondTry (fx : TurnFx) (ctx : ConversationContext) (db : DBState) :
    Except (ConversationContext × DBState)
      (ConversationResponse × ConversationContext × DBState) :=
  match fx.evalRules with
  | .error _ => .error (ctx, db)
  | .ok result =>
    let ctx := { ctx with status := .completed }
    match updateConversationFx fx ctx db with
    | .error _ => .error (ctx, db)
    | .ok db =>
      match fx.decisionCreate with
      | .error _ => .error (ctx, db)
      | .ok _ =>
        let db := { db with decisionCount := db.decisionCount + 1 }
        let response : ConversationResponse :=
          { rtype := .result
            message := formatResultMessage result.outcome result.rationale
            options := []
            outcome := some result.outcome
            rationale := some result.rationale }
        let m : Msg := ⟨.assistant, response.message⟩
        let ctx := { ctx with messages := ctx.messages ++ [m] }
        match saveMessageFx fx db m with
        | .error _ => .error (ctx, db)
        | .ok db => .ok (response, ctx, db)

/-- `evaluateAndRespond`: the `try` block above with its `catch`, which
returns the constant user-facing error response (saving it to the transcript;
a failure of that save propagates). -/
def evaluateAndRespond (fx : TurnFx) (ctx : ConversationContext) (db : DBState) :
    Except String (ConversationResponse × ConversationContext × DBState) :=
  match evaluateAndRespondTry fx ctx db with
  | .ok r => .ok r
  | .error (ctx, db) =>
    let response : ConversationResponse :=
      { rtype := .error, message := evalErrorMessage, options := [],
        outcome := none, rationale := none }
    match saveAssistantMessageFx fx ctx db response.message with
    | .error e => .error e
    | .ok (ctx, db) => .ok (response, ctx, db)

/-- The missing-input set: required inputs whose key is not yet present in
the collected inputs. -/
def missingOf (ctx : ConversationContext) : List String :=
  ctx.requiredInputs.filter (fun i => ! jsHas ctx.collectedInputs i)

/-- `collectInputs`: when fields are missing, extract from the current
message, spread-merge into the collected inputs, persist, and either ask one
clarifying question for the first still-missing field or hand off to
evaluation; when nothing is missing, hand off directly. -/
def collectInputs (fx : TurnFx) (ctx : ConversationContext) (db : DBState) :
    Except String (ConversationResponse × ConversationContext × DBState) :=
  let missingInputs := missingOf ctx
  if missingInputs.isEmpty then evaluateAndRespond fx ctx db
  else
    match fx.extract with
    | .error e => .error e
    | .ok parsed =>
      let extracted := extractInputs parsed
      let ctx := { ctx with collectedInputs := spreadMerge ctx.collectedInputs extracted }
      match updateConversationFx fx ctx db with
      | .error e => .error e
      | .ok db =>
        let stillMissing := missingInputs.filter (fun i => ! jsHas ctx.collectedInputs i)
        match stillMissing with
        | _nextInput :: _ =>
          match fx.clarify with
          | .error e => .error e
          | .ok question =>
            let response : ConversationResponse :=
              { rtype := .question, message := question, options := [],
                outcome := none, rationale := none }
            match saveAssistantMessageFx fx ctx db response.message with
            | .error e => .error e
            | .ok (ctx, db) => .ok (response, ctx, db)
        | [] => evaluateAndRespond fx ctx db

/-- `processWithJurisdiction`: category matching (single high-confidence
match auto-accepted and carried into input collection; none, several, or one
moderate match produce a conversational response), or straight to input
collection when the category is already set. -/
def processWithJurisdiction (fx : TurnFx) (ctx : ConversationContext) (db : DBState) :
    Except String (ConversationResponse × ConversationContext × DBState) :=
  match ctx.category with
  | some _ => collectInputs fx ctx db
  | none =>
    match fx.matchCat with
    | .error e => .error e
    | .ok catMatches =>
    match catMatches with
    | [] =>
      let response : ConversationResponse :=
        { rtype := .error
          message := "I couldn\x27t find any rules related to your question in " ++
            (ctx.jurisdiction.getD "undefined") ++
            ". Could you rephrase or ask about a different topic?"
          options := [], outcome := none, rationale := none }
      match saveAssistantMessageFx fx ctx db response.message with
      | .error e => .error e
      | .ok (ctx, db) => .ok (response, ctx, db)
    | [m] =>
      if m.confidence > (0.85 : ℚ) then
        let ctx := { ctx with
                     category := some m.category
                     subcategory := m.subcategory
                     requiredInputs := m.requiredInputs }
        match updateConversationFx fx ctx db with
        | .error e => .error e
        | .ok db => collectInputs fx ctx db
      else
        let response : ConversationResponse :=
          { rtype := .clarification
            message := "Are you asking about " ++ optOr m.subcategory m.category ++ "?"
            options := ["Yes", "No, something else"]
            outcome := none, rationale := none }
        match saveAssistantMessageFx fx ctx db response.message with
        | .error e => .error e
        | .ok (ctx, db) => .ok (response, ctx, db)
    | _ :: _ :: _ =>
      let response : ConversationResponse :=
        { rtype := .clarification
          message := "I found a few possibilities. Which best matches your question?"
          options := (catMatches.take 3).map (·.canonicalQuestion)
          outcome := none, rationale := none }
      match saveAssistantMessageFx fx ctx db response.message with
      | .error e => .error e
      | .ok (ctx, db) => .ok (response, ctx, db)

/-- `processMessage`: append and persist the user message, resolve the
jurisdiction if unset (asking for it when detection finds none), then
continue with `processWithJurisdiction`. -/
def processMessage (fx : TurnFx) (ctx : ConversationContext) (db : DBState)
    (userMessage : String) :
    Except String (ConversationResponse × ConversationContext × DBState) :=
  let m : Msg := ⟨.user, userMessage⟩
  let ctx := { ctx with messages := ctx.messages ++ [m] }
  match saveMessageFx fx db m with
  | .error e => .error e
  | .ok db =>
    match ctx.jurisdiction with
    | none =>
      match fx.detect with
      | .error e => .error e
      | .ok (some j) =>
        let ctx := { ctx with jurisdiction := some j }
        (match updateConversationFx fx ctx db with
         | .error e => .error e
         | .ok db => processWithJurisdiction fx ctx db)
      | .ok none =>
        let response : ConversationResponse :=
          { rtype := .question
            message := "What city or municipality are you located in?"
            options := [], outcome := none, rationale := none }
        match saveAssistantMessageFx fx ctx db response.message with
        | .error e => .error e
        | .ok (ctx, db) => .ok (response, ctx, db)
    | some _ => processWithJurisdiction fx ctx db

/-- A persisted conversation row as read back by `loadConversation`. -/
structure StoredConversation where
  jurisdiction : Option String
  category : Option String
  subcategory : Option String
  collectedInputs : JSRecord
  messages : List Msg
  status : ConvStatus

/-- `loadConversation`: rebuilds the in-memory context from the stored row.
The required-input list is hard-coded to the empty list (source comment:
"Will be populated when category is matched"). -/
def loadConversation (c : StoredConversation) : ConversationContext :=
  { jurisdiction := c.jurisdiction
    category := c.category
    subcategory := c.subcategory
    collectedInputs := c.collectedInputs
    requiredInputs := []
    messages := c.messages
    status := c.status }

/-- The outcomes of the matched evaluation results, in order. -/
def matchedOutcomes (results : List RuleEvaluationResult) : List RuleOutcome :=
  (results.filter (·.matched)).map (·.outcome)

/-! ## Theorems -/


theorem isEmpty_map {α β : Type} (f : α → β) (l : List α) :
    (l.map f).isEmpty = l.isEmpty := by
  cases l <;> simp

open Classical in
theorem determineOutcome_cases (rs : List RuleEvaluationResult) :
    determineOutcome rs =
      if matchedOutcomes rs = [] then .ALLOWED
      else if RuleOutcome.PROHIBITED ∈ matchedOutcomes rs then .PROHIBITED
      else if RuleOutcome.RESTRICTED ∈ matchedOutcomes rs then .RESTRICTED
      else if RuleOutcome.CONDITIONAL ∈ matchedOutcomes rs then .CONDITIONAL
      else RuleOutcome.ALLOWED := by
  have e0 : (rs.filter fun r => r.matched).isEmpty = true ↔ matchedOutcomes rs = [] := by
    simp [matchedOutcomes, List.isEmpty_iff]
  have e1 : ∀ X : RuleOutcome,
      (((rs.filter fun r => r.matched).any fun r => r.outcome == X) = true) ↔
        X ∈ matchedOutcomes rs := by
    intro X
    simp only [matchedOutcomes, List.any_eq_true, List.mem_filter, List.mem_map,
      beq_iff_eq]
  simp only [determineOutcome]
  by_cases h0 : matchedOutcomes rs = []
  · simp [e0.mpr h0, h0]
  · have h0b : (rs.filter fun r => r.matched).isEmpty = false := by
      rcases hb : (rs.filter fun r => r.matched).isEmpty with _ | _
      · exact hb
      · exact absurd (e0.mp hb) h0
    by_cases hP : RuleOutcome.PROHIBITED ∈ matchedOutcomes rs
    · simp [h0b, h0, (e1 _).mpr hP, hP]
    · have hPb : ((rs.filter fun r => r.matched).any fun r => r.outcome == RuleOutcome.PROHIBITED) = false := by
        rcases hb : (rs.filter fun r => r.matched).any fun r => r.outcome == RuleOutcome.PROHIBITED with _ | _
        · exact hb
        · exact absurd ((e1 _).mp hb) hP
      by_cases hR : RuleOutcome.RESTRICTED ∈ matchedOutcomes rs
      · simp [h0b, h0, hPb, hP, (e1 _).mpr hR, hR]
      · have hRb : ((rs.filter fun r => r.matched).any fun r => r.outcome == RuleOutcome.RESTRICTED) = false := by
          rcases hb : (rs.filter fun r => r.matched).any fun r => r.outcome == RuleOutcome.RESTRICTED with _ | _
          · exact hb
          · exact absurd ((e1 _).mp hb) hR
        by_cases hC : RuleOutcome.CONDITIONAL ∈ matchedOutcomes rs
        · simp [h0b, h0, hPb, hP, hRb, hR, (e1 _).mpr hC, hC]
        · have hCb : ((rs.filter fun r => r.matched).any fun r => r.outcome == RuleOutcome.CONDITIONAL) = false := by
            rcases hb : (rs.filter fun r => r.matched).any fun r => r.outcome == RuleOutcome.CONDITIONAL with _ | _
            · exact hb
            · exact absurd ((e1 _).mp hb) hC
          simp [h0b, h0, hPb, hP, hRb, hR, hCb, hC]

theorem determineOutcome_congr (a b : List RuleEvaluationResult)
    (h : matchedOutcomes a = matchedOutcomes b) :
    determineOutcome a = determineOutcome b := by
  rw [determineOutcome_cases a, determineOutcome_cases b, h]


/-- C2: `determineOutcome` returns `ALLOWED` when no result is matched, and
otherwise the most restrictive outcome present among the matched results under
the fixed total order PROHIBITED > RESTRICTED > CONDITIONAL > ALLOWED; any
matched PROHIBITED forces PROHIBITED; and the result depends only on the
matched results' outcomes (in particular, rule priority — which the
evaluation-result type does not even carry — has no effect). -/
theorem determineOutcome_most_restrictive (results : List RuleEvaluationResult) :
    (matchedOutcomes results = [] → determineOutcome results = .ALLOWED) ∧
    (matchedOutcomes results ≠ [] →
      determineOutcome results ∈ matchedOutcomes results ∧
      ∀ o ∈ matchedOutcomes results, severity o ≤ severity (determineOutcome results)) ∧
    (RuleOutcome.PROHIBITED ∈ matchedOutcomes results →
      determineOutcome results = .PROHIBITED) ∧
    (∀ results2, matchedOutcomes results2 = matchedOutcomes results →
      determineOutcome results2 = determineOutcome results) := by
  refine ⟨?_, ?_, ?_, fun results2 h => determineOutcome_congr results2 results h⟩
  · intro h
    rw [determineOutcome_cases]
    simp [h]
  · intro hne
    rw [determineOutcome_cases]
    simp only [hne, if_false]
    split_ifs with hP hR hC
    · exact ⟨hP, fun o _ => by cases o <;> simp [severity]⟩
    · refine ⟨hR, fun o ho => ?_⟩
      cases o
      · simp [severity]
      · simp [severity]
      · simp [severity]
      · exact absurd ho hP
    · refine ⟨hC, fun o ho => ?_⟩
      cases o
      · simp [severity]
      · simp [severity]
      · exact absurd ho hR
      · exact absurd ho hP
    · have hall : ∀ o ∈ matchedOutcomes results, o = RuleOutcome.ALLOWED := by
        intro o ho
        cases o
        · rfl
        · exact absurd ho hC
        · exact absurd ho hR
        · exact absurd ho hP
      obtain ⟨o, ho⟩ := List.exists_mem_of_ne_nil _ hne
      refine ⟨?_, fun o2 ho2 => ?_⟩
      · rw [← hall o ho]
        exact ho
      · rw [hall o2 ho2]
  · intro h
    rw [determineOutcome_cases]
    simp [List.ne_nil_of_mem h, h]

/-- Witness for C2 at a concrete result set containing a matched PROHIBITED
and a matched ALLOWED result. -/
theorem determineOutcome_most_restrictive_witness :
    RuleOutcome.PROHIBITED ∈
      matchedOutcomes
        [{ outcome := .PROHIBITED, matched := true, failedConditions := [],
           passedConditions := [], ruleKey := "p", description := "p", citation := none },
         { outcome := .ALLOWED, matched := true, failedConditions := [],
           passedConditions := [], ruleKey := "a", description := "a", citation := none }] ∧
    determineOutcome
        [{ outcome := .PROHIBITED, matched := true, failedConditions := [],
           passedConditions := [], ruleKey := "p", description := "p", citation := none },
         { outcome := .ALLOWED, matched := true, failedConditions := [],
           passedConditions := [], ruleKey := "a", description := "a", citation := none }] =
      .PROHIBITED :=
  ⟨by simp [matchedOutcomes],
   (determineOutcome_most_restrictive _).2.2.1 (by simp [matchedOutcomes])⟩

/-- C6: for `greaterThan`/`lessThan` conditions, if either operand's numeric
coercion yields `NaN`, the condition never throws and evaluates to not
passed. -/
theorem evaluateCondition_numeric_nan_safe (condition : RuleCondition) (inputs : JSRecord)
    (hop : condition.operator = "greaterThan" ∨ condition.operator = "lessThan")
    (hnan : toNumber ((jsLookup inputs condition.field).getD .undef) = none ∨
            toNumber condition.value = none) :
    evaluateCondition condition inputs = .ok { passed := false, message := condition.message } := by
  have hGT : numGT (toNumber ((jsLookup inputs condition.field).getD .undef))
      (toNumber condition.value) = false := by
    rcases hnan with h | h <;>
      rcases ha : toNumber ((jsLookup inputs condition.field).getD .undef) with _ | a <;>
      rcases hb : toNumber condition.value with _ | b <;>
      simp_all [numGT]
  have hLT : numLT (toNumber ((jsLookup inputs condition.field).getD .undef))
      (toNumber condition.value) = false := by
    rcases hnan with h | h <;>
      rcases ha : toNumber ((jsLookup inputs condition.field).getD .undef) with _ | a <;>
      rcases hb : toNumber condition.value with _ | b <;>
      simp_all [numLT]
  rcases hop with h | h <;> simp [evaluateCondition, h, hGT, hLT]

/-- Witness for C6: a `greaterThan` condition whose field is absent from the
inputs (so its coercion is `NaN`) evaluates to not passed. -/
theorem evaluateCondition_numeric_nan_safe_witness :
    ((⟨"x", "greaterThan", JSValue.str "abc", none⟩ : RuleCondition).operator = "greaterThan" ∨
      (⟨"x", "greaterThan", JSValue.str "abc", none⟩ : RuleCondition).operator = "lessThan") ∧
    (toNumber ((jsLookup [] "x").getD .undef) = none ∨
      toNumber (JSValue.str "abc") = none) ∧
    evaluateCondition ⟨"x", "greaterThan", JSValue.str "abc", none⟩ [] =
      .ok { passed := false, message := none } :=
  ⟨Or.inl rfl, Or.inl rfl,
   evaluateCondition_numeric_nan_safe ⟨"x", "greaterThan", JSValue.str "abc", none⟩ []
     (Or.inl rfl) (Or.inl rfl)⟩

theorem callAI_some (cfg : AIConfig) (oracle : ProviderOracle) (p : Provider) :
    callAI cfg oracle (some p) = callProvider cfg oracle p := by
  rw [callAI]
  rcases h : callProvider cfg oracle p with e | r <;> simp [h]

theorem callAITried_some (cfg : AIConfig) (oracle : ProviderOracle) (p : Provider) :
    callAITried cfg oracle (some p) = [p] := by
  rw [callAITried]
  rcases h : callProvider cfg oracle p with e | r <;> simp [h]

/-- C7: a call with an explicit provider hint behaves exactly as the single
hinted provider call — its error (including the not-configured error) is
surfaced directly — and no other provider is tried. -/
theorem callAI_hinted_no_fallback (cfg : AIConfig) (oracle : ProviderOracle) (p : Provider) :
    callAI cfg oracle (some p) = callProvider cfg oracle p ∧
    callAITried cfg oracle (some p) = [p] ∧
    (cfg.configured p = false →
      callAI cfg oracle (some p) = .error (.notConfigured p)) := by
  refine ⟨callAI_some cfg oracle p, callAITried_some cfg oracle p, fun hc => ?_⟩
  rw [callAI_some cfg oracle p, callProvider, hc]
  simp

/-- Witness for C7: a hinted call to an unconfigured provider fails with that
provider's not-configured error while the other (configured, healthy)
providers are untried. -/
theorem callAI_hinted_no_fallback_witness :
    (AIConfig.mk true true false .gemini true).configured .openai = false ∧
    callAI (AIConfig.mk true true false .gemini true)
      (fun _ => .ok ("fine", none)) (some .openai) = .error (.notConfigured .openai) ∧
    callAITried (AIConfig.mk true true false .gemini true)
      (fun _ => .ok ("fine", none)) (some .openai) = [.openai] :=
  ⟨rfl,
   (callAI_hinted_no_fallback (AIConfig.mk true true false .gemini true)
       (fun _ => .ok ("fine", none)) .openai).2.2 rfl,
   callAITried_some (AIConfig.mk true true false .gemini true)
     (fun _ => .ok ("fine", none)) .openai⟩

/-- C9: `detectJurisdiction` returns not-found whenever the trimmed completion
lacks a comma, regardless of the store (the check precedes any lookup); in
particular a stored jurisdiction whose name has no comma is never returned,
even when the completion names it exactly. -/
theorem detectJurisdiction_requires_comma (content : String) (store : List Jurisdiction) :
    (strContainsChar (jsTrim content) ',' = false → detectJurisdiction content store = none) ∧
    (∀ j ∈ store, strContainsChar j.name ',' = false → jsTrim content = j.name →
      detectJurisdiction content store = none) := by
  have base : strContainsChar (jsTrim content) ',' = false →
      detectJurisdiction content store = none := by
    intro h
    simp [detectJurisdiction, h]
  exact ⟨base, fun j _ hn he => base (by rw [he]; exact hn)⟩

/-- Witness for C9: the completion "Springfield" names a stored jurisdiction
exactly, yet detection returns not-found because the text has no comma. -/
theorem detectJurisdiction_requires_comma_witness :
    strContainsChar (jsTrim "Springfield") ',' = false ∧
    (⟨"Springfield"⟩ : Jurisdiction) ∈ [(⟨"Springfield"⟩ : Jurisdiction)] ∧
    jsTrim "Springfield" = "Springfield" ∧
    detectJurisdiction "Springfield" [⟨"Springfield"⟩] = none :=
  ⟨by decide, by simp, by decide,
   (detectJurisdiction_requires_comma "Springfield" [⟨"Springfield"⟩]).2
     ⟨"Springfield"⟩ (by simp) (by decide) (by decide)⟩

theorem evalChecks_nil (inputs : JSRecord) : evalChecks inputs [] = .ok ([], []) := by
  rw [evalChecks]

theorem evalChecks_cond (inputs : JSRecord) (rc : RuleCondition) (rest : List Check) :
    evalChecks inputs (.cond rc :: rest) =
      match evaluateCondition rc inputs with
      | .error e => .error e
      | .ok r =>
        match evalChecks inputs rest with
        | .error e => .error e
        | .ok (f, p) =>
          if r.passed then .ok (f, condMessage rc r :: p) else .ok (condMessage rc r :: f, p) := by
  rw [evalChecks]
  rcases hr : evaluateCondition rc inputs with e | r
  · rfl
  · rcases hx : evalChecks inputs rest with e2 | fp
    · rfl
    · obtain ⟨f1, p1⟩ := fp
      rfl

theorem evalChecks_group (inputs : JSRecord) (t : String) (cs0 rest : List Check) :
    evalChecks inputs (.group t cs0 :: rest) =
      match evalChecks inputs cs0 with
      | .error e => .error e
      | .ok (nf, np) =>
        match evalChecks inputs rest with
        | .error e => .error e
        | .ok (f, p) => .ok (nf ++ f, np ++ p) := by
  rw [evalChecks]
  rcases hx : evalChecks inputs cs0 with e | nfp
  · rfl
  · obtain ⟨nf, np⟩ := nfp
    rcases hy : evalChecks inputs rest with e2 | fp
    · rfl
    · obtain ⟨f1, p1⟩ := fp
      rfl

theorem evalChecks_spec (inputs : JSRecord) (cs : List Check) :
    ∀ f p, evalChecks inputs cs = .ok (f, p) →
      ((f = [] ↔ ∀ c ∈ leavesOf cs, ∃ cr, evaluateCondition c inputs = .ok cr ∧ cr.passed = true) ∧
       (p ≠ [] ↔ ∃ c ∈ leavesOf cs, ∃ cr, evaluateCondition c inputs = .ok cr ∧ cr.passed = true)) := by
  induction cs using evalChecks.induct inputs with
  | case1 =>
    intro f p h
    rw [evalChecks_nil] at h
    simp at h
    obtain ⟨hf, hp⟩ := h
    subst hf
    subst hp
    simp [leavesOf]
  | case2 rc rest ih =>
    intro f p h
    rw [evalChecks_cond] at h
    rcases hr : evaluateCondition rc inputs with e | r
    · rw [hr] at h
      simp at h
    rw [hr] at h
    rcases hrest : evalChecks inputs rest with e2 | fp
    · rw [hrest] at h
      simp at h
    obtain ⟨f0, p0⟩ := fp
    rw [hrest] at h
    dsimp only at h
    have ihs := ih f0 p0 hrest
    rcases hp : r.passed with _ | _
    · rw [hp] at h
      simp at h
      obtain ⟨hf, hpp⟩ := h
      subst hf; subst hpp
      constructor
      · constructor
        · intro hfalse
          exact absurd hfalse (List.cons_ne_nil _ _)
        · intro hall
          obtain ⟨cr, hcr, hcrp⟩ := hall rc (by rw [leavesOf]; exact List.mem_cons_self _ _)
          rw [hr] at hcr
          injection hcr with hcr
          rw [← hcr, hp] at hcrp
          exact absurd hcrp (by simp)
      · constructor
        · intro hne
          obtain ⟨c, hc, hcr⟩ := ihs.2.mp hne
          exact ⟨c, by rw [leavesOf]; exact List.mem_cons_of_mem _ hc, hcr⟩
        · intro hex
          obtain ⟨c, hc, cr, hcr, hcrp⟩ := hex
          rw [leavesOf] at hc
          rcases List.mem_cons.mp hc with rfl | hc2
          · rw [hr] at hcr
            injection hcr with hcr
            rw [← hcr, hp] at hcrp
            exact absurd hcrp (by simp)
          · exact ihs.2.mpr ⟨c, hc2, cr, hcr, hcrp⟩
    · rw [hp] at h
      simp at h
      obtain ⟨hf, hpp⟩ := h
      subst hf; subst hpp
      constructor
      · constructor
        · intro hf0 c hc
          rw [leavesOf] at hc
          rcases List.mem_cons.mp hc with rfl | hc2
          · exact ⟨r, hr, hp⟩
          · exact ihs.1.mp hf0 c hc2
        · intro hall
          exact ihs.1.mpr fun c hc => hall c (by rw [leavesOf]; exact List.mem_cons_of_mem _ hc)
      · constructor
        · intro _
          exact ⟨rc, by rw [leavesOf]; exact List.mem_cons_self _ _, r, hr, hp⟩
        · intro _
          exact List.cons_ne_nil _ _
  | case3 t cs0 rest ihcs ihrest =>
    intro f p h
    rw [evalChecks_group] at h
    rcases hcs : evalChecks inputs cs0 with e | nfp
    · rw [hcs] at h
      simp at h
    obtain ⟨nf, np⟩ := nfp
    rw [hcs] at h
    rcases hrest : evalChecks inputs rest with e2 | fp0
    · rw [hrest] at h
      simp at h
    obtain ⟨f0, p0⟩ := fp0
    rw [hrest] at h
    simp at h
    obtain ⟨hf, hpp⟩ := h
    subst hf; subst hpp
    have ihs1 := ihcs nf np hcs
    have ihs2 := ihrest f0 p0 hrest
    constructor
    · rw [List.append_eq_nil]
      constructor
      · rintro ⟨h1, h2⟩ c hc
        rw [leavesOf] at hc
        rcases List.mem_append.mp hc with hc1 | hc2
        · exact ihs1.1.mp h1 c hc1
        · exact ihs2.1.mp h2 c hc2
      · intro hall
        constructor
        · exact ihs1.1.mpr fun c hc => hall c (by rw [leavesOf]; exact List.mem_append_left _ hc)
        · exact ihs2.1.mpr fun c hc => hall c (by rw [leavesOf]; exact List.mem_append_right _ hc)
    · constructor
      · intro hne
        by_cases hnp : np = []
        · have hp0 : p0 ≠ [] := by
            intro h0
            rw [hnp, h0] at hne
            simp at hne
          obtain ⟨c, hc, hcr⟩ := ihs2.2.mp hp0
          exact ⟨c, by rw [leavesOf]; exact List.mem_append_right _ hc, hcr⟩
        · obtain ⟨c, hc, hcr⟩ := ihs1.2.mp hnp
          exact ⟨c, by rw [leavesOf]; exact List.mem_append_left _ hc, hcr⟩
      · intro hex
        obtain ⟨c, hc, hcr⟩ := hex
        rw [leavesOf] at hc
        intro h0
        rw [List.append_eq_nil] at h0
        rcases List.mem_append.mp hc with hc1 | hc2
        · exact (ihs1.2.mpr ⟨c, hc1, hcr⟩) h0.1
        · exact (ihs2.2.mpr ⟨c, hc2, hcr⟩) h0.2

theorem evaluateRule_eq (rule : Rule) (inputs : JSRecord) :
    evaluateRule rule inputs =
      match evalChecks inputs rule.conditions.checks with
      | .error e => .error e
      | .ok (f, p) =>
        .ok { outcome := rule.outcome
              matched := if rule.conditions.type = "all" then f.isEmpty else ! p.isEmpty
              failedConditions := f
              passedConditions := p
              ruleKey := rule.key
              description := rule.description
              citation := rule.citation } := by
  unfold evaluateRule evaluateConditionGroup
  rcases hx : evalChecks inputs rule.conditions.checks with e | fp
  · rfl
  · obtain ⟨f1, p1⟩ := fp
    rfl

/-- C1 (amended): `evaluateRule(R, I).matched` reflects the FLATTENED
semantics: for an `"all"` root it is true iff every leaf condition anywhere in
the tree passes, otherwise (`"any"`) iff some leaf condition anywhere passes —
a nested group contributes its leaves' individual results, not its own
pass/fail result. -/
theorem evaluateRule_matched_flattened (rule : Rule) (inputs : JSRecord)
    (res : RuleEvaluationResult) (h : evaluateRule rule inputs = .ok res) :
    (rule.conditions.type = "all" →
      (res.matched = true ↔ ∀ c ∈ leavesOf rule.conditions.checks,
        ∃ cr, evaluateCondition c inputs = .ok cr ∧ cr.passed = true)) ∧
    (rule.conditions.type ≠ "all" →
      (res.matched = true ↔ ∃ c ∈ leavesOf rule.conditions.checks,
        ∃ cr, evaluateCondition c inputs = .ok cr ∧ cr.passed = true)) := by
  rw [evaluateRule_eq] at h
  rcases hg : evalChecks inputs rule.conditions.checks with e | fp
  · rw [hg] at h
    simp at h
  obtain ⟨f, p⟩ := fp
  rw [hg] at h
  dsimp only at h
  injection h with h
  have hm : res.matched = (if rule.conditions.type = "all" then f.isEmpty else ! p.isEmpty) := by
    rw [← h]
  obtain ⟨hspec1, hspec2⟩ := evalChecks_spec inputs rule.conditions.checks f p hg
  constructor
  · intro ht
    rw [hm, if_pos ht]
    rw [List.isEmpty_iff]
    exact hspec1
  · intro ht
    rw [hm, if_neg ht]
    constructor
    · intro hb
      apply hspec2.mp
      intro h0
      rw [h0] at hb
      simp at hb
    · intro hex
      have hne := hspec2.mpr hex
      rcases hp2 : p with _ | _
      · exact absurd hp2 hne
      · simp

/-- Counterexample for C1 as stated: a rule whose root `"all"` group contains
one nested `"any"` group with a passing and a failing condition.  Under the
spec's recursive semantics the nested group passes (some child passes) and so
the root passes; but `evaluateRule` reports `matched = false`, because it
flattens the nested group's leaf results into the root's failed list instead
of using the nested group's own pass/fail result. -/
theorem evaluateRule_nested_group_counterexample :
    specGroupSat [("x", JSValue.bool true)] "all"
      [.group "any" [.cond ⟨"x", "equals", .bool true, some "pm"⟩,
                     .cond ⟨"x", "equals", .bool false, some "fm"⟩]] = .ok true ∧
    (evaluateRule
      { key := "r", description := "d", outcome := .PROHIBITED,
        conditions := ⟨"all",
          [.group "any" [.cond ⟨"x", "equals", .bool true, some "pm"⟩,
                         .cond ⟨"x", "equals", .bool false, some "fm"⟩]]⟩,
        citation := none, priority := 0 }
      [("x", JSValue.bool true)]).map (·.matched) = .ok false := by
  constructor
  · simp [specGroupSat, specChildSat, evaluateCondition, jsLookup, jsStrictEq]
    rfl
  · simp [evaluateRule, evaluateConditionGroup, evalChecks, evaluateCondition, condMessage,
          jsLookup, jsStrictEq]
    rfl

/-- Witness for the amended C1 at a one-condition `"all"` rule whose condition
passes. -/
theorem evaluateRule_matched_flattened_witness :
    evaluateRule
      { key := "r", description := "d", outcome := .CONDITIONAL,
        conditions := ⟨"all", [.cond ⟨"x", "equals", JSValue.bool true, some "pm"⟩]⟩,
        citation := none, priority := 0 }
      [("x", JSValue.bool true)] =
      .ok { outcome := .CONDITIONAL, matched := true, failedConditions := [],
            passedConditions := ["pm"], ruleKey := "r", description := "d", citation := none } ∧
    ((true : Bool) = true ↔
      ∀ c ∈ leavesOf [.cond ⟨"x", "equals", JSValue.bool true, some "pm"⟩],
        ∃ cr, evaluateCondition c [("x", JSValue.bool true)] = .ok cr ∧ cr.passed = true) := by
  have hEval :
      evaluateRule
        { key := "r", description := "d", outcome := .CONDITIONAL,
          conditions := ⟨"all", [.cond ⟨"x", "equals", JSValue.bool true, some "pm"⟩]⟩,
          citation := none, priority := 0 }
        [("x", JSValue.bool true)] =
        .ok { outcome := .CONDITIONAL, matched := true, failedConditions := [],
              passedConditions := ["pm"], ruleKey := "r", description := "d", citation := none } := by
    simp [evaluateRule, evaluateConditionGroup, evalChecks, evaluateCondition, condMessage,
          jsLookup, jsStrictEq]
    rfl
  exact ⟨hEval, (evaluateRule_matched_flattened _ _ _ hEval).1 rfl⟩

theorem getFallbackProvider_ne (cfg : AIConfig) (p : Provider) :
    getFallbackProvider cfg p ≠ p := by
  cases p <;> unfold getFallbackProvider <;> split_ifs <;> simp

theorem callProvider_ok_provider (cfg : AIConfig) (oracle : ProviderOracle)
    (q : Provider) (r : AIResponse) (h : callProvider cfg oracle q = .ok r) :
    r.provider = q := by
  unfold callProvider at h
  rcases hc : cfg.configured q with _ | _ <;> rw [hc] at h
  · simp at h
  · simp only [Bool.not_true, decide_True, decide_False] at h
    rw [if_neg (by simp)] at h
    rcases ho : oracle q with e | tk <;> rw [ho] at h
    · simp at h
    · obtain ⟨t, k⟩ := tk
      dsimp only at h
      injection h with h
      rw [← h]

/-- C3 (amended): on a call without a provider hint whose primary provider
call fails: when fallback is enabled, exactly one fallback — the distinct
provider chosen by `getFallbackProvider` — is tried, the call's result is
that provider's result (so it succeeds, reporting the fallback's identity,
exactly when that provider succeeds, and otherwise fails with the fallback's
error, not the primary's); when fallback is disabled, the call fails with the
primary's error having tried only the primary. -/
theorem callAI_fallback_behaviour (cfg : AIConfig) (oracle : ProviderOracle) (e : AIError)
    (h : callProvider cfg oracle cfg.primary = .error e) :
    (cfg.fallbackEnabled = true →
      callAI cfg oracle none = callProvider cfg oracle (getFallbackProvider cfg cfg.primary) ∧
      callAITried cfg oracle none = [cfg.primary, getFallbackProvider cfg cfg.primary] ∧
      getFallbackProvider cfg cfg.primary ≠ cfg.primary ∧
      (∀ r, callProvider cfg oracle (getFallbackProvider cfg cfg.primary) = .ok r →
        r.provider = getFallbackProvider cfg cfg.primary)) ∧
    (cfg.fallbackEnabled = false →
      callAI cfg oracle none = .error e ∧
      callAITried cfg oracle none = [cfg.primary]) := by
  constructor
  · intro hfb
    refine ⟨?_, ?_, getFallbackProvider_ne cfg cfg.primary,
      fun r hr => callProvider_ok_provider cfg oracle _ r hr⟩
    · rw [callAI]
      simp only [Option.getD_none]
      rw [h]
      simp [hfb]
      exact callAI_some cfg oracle _
    · rw [callAITried]
      simp only [Option.getD_none]
      rw [h]
      simp [hfb]
      exact callAITried_some cfg oracle _
  · intro hfb
    constructor
    · rw [callAI]
      simp only [Option.getD_none]
      rw [h]
      simp [hfb]
    · rw [callAITried]
      simp only [Option.getD_none]
      rw [h]
      simp [hfb]

/-- Counterexample for C3 as stated: the primary (gemini) raises an error and
a fallback provider (anthropic) is configured, yet the call does not succeed —
the fallback call itself fails and its error (not the primary's) is surfaced —
and the third configured chain member (openai, which would have succeeded) is
never tried. -/
theorem callAI_fallback_counterexample :
    callProvider
      { geminiConfigured := true, anthropicConfigured := true, openaiConfigured := true,
        primary := .gemini, fallbackEnabled := true }
      (fun p => match p with
        | .gemini => .error "gemini down"
        | .anthropic => .error "anthropic down"
        | .openai => .ok ("ok", none))
      Provider.gemini = .error (.external "gemini down") ∧
    callAI
      { geminiConfigured := true, anthropicConfigured := true, openaiConfigured := true,
        primary := .gemini, fallbackEnabled := true }
      (fun p => match p with
        | .gemini => .error "gemini down"
        | .anthropic => .error "anthropic down"
        | .openai => .ok ("ok", none))
      none = .error (.external "anthropic down") ∧
    callAITried
      { geminiConfigured := true, anthropicConfigured := true, openaiConfigured := true,
        primary := .gemini, fallbackEnabled := true }
      (fun p => match p with
        | .gemini => .error "gemini down"
        | .anthropic => .error "anthropic down"
        | .openai => .ok ("ok", none))
      none = [.gemini, .anthropic] := by
  refine ⟨rfl, ?_, ?_⟩
  · rw [callAI]
    rw [callAI]
    rfl
  · rw [callAITried]
    rw [callAITried]
    rfl

/-- Witness for the amended C3: primary gemini fails, anthropic is configured
and healthy; fallback is enabled, so the call is the anthropic call and the
tried list is [gemini, anthropic]. -/
theorem callAI_fallback_behaviour_witness :
    callProvider
      { geminiConfigured := true, anthropicConfigured := true, openaiConfigured := false,
        primary := .gemini, fallbackEnabled := true }
      (fun p => match p with
        | .gemini => .error "gdown"
        | _ => .ok ("hello", none))
      Provider.gemini = .error (.external "gdown") ∧
    callAI
      { geminiConfigured := true, anthropicConfigured := true, openaiConfigured := false,
        primary := .gemini, fallbackEnabled := true }
      (fun p => match p with
        | .gemini => .error "gdown"
        | _ => .ok ("hello", none))
      none =
      callProvider
        { geminiConfigured := true, anthropicConfigured := true, openaiConfigured := false,
          primary := .gemini, fallbackEnabled := true }
        (fun p => match p with
          | .gemini => .error "gdown"
          | _ => .ok ("hello", none))
        (getFallbackProvider
          { geminiConfigured := true, anthropicConfigured := true, openaiConfigured := false,
            primary := .gemini, fallbackEnabled := true }
          Provider.gemini) ∧
    callAITried
      { geminiConfigured := true, anthropicConfigured := true, openaiConfigured := false,
        primary := .gemini, fallbackEnabled := true }
      (fun p => match p with
        | .gemini => .error "gdown"
        | _ => .ok ("hello", none))
      none = [.gemini, .anthropic] :=
  ⟨rfl,
   ((callAI_fallback_behaviour
       { geminiConfigured := true, anthropicConfigured := true, openaiConfigured := false,
         primary := .gemini, fallbackEnabled := true }
       (fun p => match p with
         | .gemini => .error "gdown"
         | _ => .ok ("hello", none))
       (.external "gdown") rfl).1 rfl).1,
   ((callAI_fallback_behaviour
       { geminiConfigured := true, anthropicConfigured := true, openaiConfigured := false,
         primary := .gemini, fallbackEnabled := true }
       (fun p => match p with
         | .gemini => .error "gdown"
         | _ => .ok ("hello", none))
       (.external "gdown") rfl).1 rfl).2.1⟩

theorem jsLookup_spreadMerge_none (a b : JSRecord) (k : String)
    (h : jsLookup b k = none) : jsLookup (spreadMerge a b) k = jsLookup a k := by
  unfold jsLookup at h ⊢
  unfold spreadMerge
  have hb : b.reverse.find? (fun kv => kv.1 == k) = none := by
    rcases hf : b.reverse.find? (fun kv => kv.1 == k) with _ | v
    · exact hf
    · rw [hf] at h
      simp at h
  rw [List.reverse_append, List.find?_append, hb]
  simp

theorem missingOf_not_has (ctx : ConversationContext) :
    ∀ i ∈ missingOf ctx, jsHas ctx.collectedInputs i = false := by
  intro i hi
  rw [missingOf, List.mem_filter] at hi
  simpa using hi.2

theorem evaluateAndRespondTry_ctx (fx : TurnFx) (ctx : ConversationContext) (db : DBState) :
    (∀ r, evaluateAndRespondTry fx ctx db = .ok r →
      r.2.1.collectedInputs = ctx.collectedInputs ∧ r.2.1.requiredInputs = ctx.requiredInputs) ∧
    (∀ cd, evaluateAndRespondTry fx ctx db = .error cd →
      cd.1.collectedInputs = ctx.collectedInputs ∧ cd.1.requiredInputs = ctx.requiredInputs) := by
  unfold evaluateAndRespondTry updateConversationFx saveMessageFx
  rcases fx.evalRules with e | result
  · constructor
    · intro r h
      simp at h
    · intro cd h
      injection h with h
      rw [← h]
      exact ⟨rfl, rfl⟩
  · rcases fx.update with eu | u
    · constructor
      · intro r h
        simp at h
      · intro cd h
        injection h with h
        rw [← h]
        exact ⟨rfl, rfl⟩
    · rcases fx.decisionCreate with ed | d
      · constructor
        · intro r h
          simp at h
        · intro cd h
          injection h with h
          rw [← h]
          exact ⟨rfl, rfl⟩
      · rcases fx.saveMsg with es | sm
        · constructor
          · intro r h
            simp at h
          · intro cd h
            injection h with h
            rw [← h]
            exact ⟨rfl, rfl⟩
        · constructor
          · intro r h
            injection h with h
            rw [← h]
            exact ⟨rfl, rfl⟩
          · intro cd h
            simp at h

theorem evaluateAndRespond_collected (fx : TurnFx) (ctx : ConversationContext) (db : DBState)
    (out : ConversationResponse × ConversationContext × DBState)
    (h : evaluateAndRespond fx ctx db = .ok out) :
    out.2.1.collectedInputs = ctx.collectedInputs ∧
    out.2.1.requiredInputs = ctx.requiredInputs := by
  unfold evaluateAndRespond at h
  rcases htry : evaluateAndRespondTry fx ctx db with cd | r
  · rw [htry] at h
    obtain ⟨hc, hr⟩ := (evaluateAndRespondTry_ctx fx ctx db).2 cd htry
    obtain ⟨cdc, cdd⟩ := cd
    dsimp only at h hc hr
    unfold saveAssistantMessageFx saveMessageFx at h
    rcases hs : fx.saveMsg with es | u <;> rw [hs] at h
    · simp at h
    · dsimp only at h
      injection h with h
      rw [← h]
      exact ⟨hc, hr⟩
  · rw [htry] at h
    dsimp only at h
    injection h with h
    rw [← h]
    exact (evaluateAndRespondTry_ctx fx ctx db).1 r htry

/-- C4 (amended): during `collectInputs`, an already-set field keeps its value
whenever it does not occur as a key of the extraction result — the merge only
overwrites keys the extraction actually returned (requested or not) — and the
requested (missing) fields are exactly the required fields not yet collected,
so an already-set field is never requested. -/
theorem collectInputs_preserves_unextracted (fx : TurnFx) (ctx : ConversationContext)
    (db : DBState) (out : ConversationResponse × ConversationContext × DBState) (k : String)
    (hrun : collectInputs fx ctx db = .ok out)
    (hk : ∀ r, fx.extract = .ok r → jsLookup (extractInputs r) k = none) :
    jsLookup out.2.1.collectedInputs k = jsLookup ctx.collectedInputs k ∧
    (∀ i ∈ missingOf ctx, jsHas ctx.collectedInputs i = false) := by
  refine ⟨?_, missingOf_not_has ctx⟩
  unfold collectInputs at hrun
  dsimp only at hrun
  rcases hmiss : (missingOf ctx).isEmpty with _ | _ <;> rw [hmiss] at hrun
  · -- missing fields exist: the extraction-and-merge path
    rw [if_neg (by simp)] at hrun
    rcases hex : fx.extract with e | parsed <;> rw [hex] at hrun
    · simp at hrun
    · dsimp only at hrun
      have hmerge :
          jsLookup (spreadMerge ctx.collectedInputs (extractInputs parsed)) k =
            jsLookup ctx.collectedInputs k :=
        jsLookup_spreadMerge_none _ _ k (hk parsed hex)
      unfold updateConversationFx at hrun
      rcases hupd : fx.update with eu | u <;> rw [hupd] at hrun
      · simp at hrun
      · dsimp only at hrun
        rcases hstill : (missingOf ctx).filter
            (fun i => ! jsHas (spreadMerge ctx.collectedInputs (extractInputs parsed)) i) with
          _ | ⟨nxt, rest⟩ <;> rw [hstill] at hrun
        · -- nothing still missing: straight to evaluation
          obtain ⟨hc, _⟩ := evaluateAndRespond_collected fx _ _ out hrun
          rw [hc]
          exact hmerge
        · -- ask a clarifying question
          rcases hcl : fx.clarify with e2 | q <;> rw [hcl] at hrun
          · simp at hrun
          · unfold saveAssistantMessageFx saveMessageFx at hrun
            rcases hs : fx.saveMsg with es | u2 <;> rw [hs] at hrun
            · simp at hrun
            · dsimp only at hrun
              injection hrun with hrun
              rw [← hrun]
              exact hmerge
  · -- no missing fields: collected inputs flow through evaluation unchanged
    rw [if_pos rfl] at hrun
    obtain ⟨hc, _⟩ := evaluateAndRespond_collected fx ctx db out hrun
    rw [hc]

/-- Witness for the amended C4: the extraction returns only the requested
field "b", so the already-set "a" keeps its value. -/
theorem collectInputs_preserves_unextracted_witness :
    collectInputs
      { evalRules := .error "unused", update := .ok (), decisionCreate := .ok (),
        saveMsg := .ok (), detect := .ok none, matchCat := .ok [],
        extract := .ok (some [("b", JSValue.num 2)]), clarify := .ok "q" }
      { jurisdiction := some "J", category := some "c", subcategory := none,
        collectedInputs := [("a", JSValue.num 1)], requiredInputs := ["a", "b", "f"],
        messages := [], status := .active }
      { status := .active, jurisdiction := some "J", category := some "c",
        subcategory := none, collectedInputs := [("a", JSValue.num 1)],
        messages := [], decisionCount := 0 } =
      .ok ({ rtype := .question, message := "q", options := [], outcome := none,
             rationale := none },
           { jurisdiction := some "J", category := some "c", subcategory := none,
             collectedInputs := [("a", JSValue.num 1), ("b", JSValue.num 2)],
             requiredInputs := ["a", "b", "f"],
             messages := [⟨.assistant, "q"⟩], status := .active },
           { status := .active, jurisdiction := some "J", category := some "c",
             subcategory := none,
             collectedInputs := [("a", JSValue.num 1), ("b", JSValue.num 2)],
             messages := [⟨.assistant, "q"⟩], decisionCount := 0 }) ∧
    jsLookup
      [("a", JSValue.num 1), ("b", JSValue.num 2)] "a" =
      jsLookup [("a", JSValue.num 1)] "a" := by
  constructor
  · rfl
  · exact (collectInputs_preserves_unextracted
      { evalRules := .error "unused", update := .ok (), decisionCreate := .ok (),
        saveMsg := .ok (), detect := .ok none, matchCat := .ok [],
        extract := .ok (some [("b", JSValue.num 2)]), clarify := .ok "q" }
      { jurisdiction := some "J", category := some "c", subcategory := none,
        collectedInputs := [("a", JSValue.num 1)], requiredInputs := ["a", "b", "f"],
        messages := [], status := .active }
      { status := .active, jurisdiction := some "J", category := some "c",
        subcategory := none, collectedInputs := [("a", JSValue.num 1)],
        messages := [], decisionCount := 0 }
      _ "a" rfl (fun r hr => by injection hr with hr; rw [← hr]; rfl)).1

/-- Counterexample for C4 as stated: the requested (missing) field is only
"b", yet the extraction result also carries "a" — which the code merges in
unfiltered, silently overwriting the already-set value of the non-requested
field "a". -/
theorem collectInputs_overwrite_counterexample :
    missingOf
      { jurisdiction := some "J", category := some "c", subcategory := none,
        collectedInputs := [("a", JSValue.num 1)], requiredInputs := ["a", "b"],
        messages := [], status := .active } = ["b"] ∧
    jsLookup [("a", JSValue.num 1)] "a" = some (JSValue.num 1) ∧
    (collectInputs
      { evalRules := .error "unused", update := .ok (), decisionCreate := .ok (),
        saveMsg := .ok (), detect := .ok none, matchCat := .ok [],
        extract := .ok (some [("a", JSValue.num 2)]), clarify := .ok "What is b?" }
      { jurisdiction := some "J", category := some "c", subcategory := none,
        collectedInputs := [("a", JSValue.num 1)], requiredInputs := ["a", "b"],
        messages := [], status := .active }
      { status := .active, jurisdiction := some "J", category := some "c",
        subcategory := none, collectedInputs := [("a", JSValue.num 1)],
        messages := [], decisionCount := 0 }).map
      (fun out => jsLookup out.2.1.collectedInputs "a") = .ok (some (JSValue.num 2)) :=
  ⟨rfl, rfl, rfl⟩

/-- C5 (amended): when the evaluation bridge itself throws and the transcript
write succeeds, the turn returns the constant user-facing error response (its
text is a fixed string, independent of the thrown error, so no internal detail
leaks) and neither the in-memory nor the persisted conversation state changes,
apart from the appended assistant message: status, collected inputs and the
decision count are untouched. -/
theorem evaluateAndRespond_bridge_error (fx : TurnFx) (ctx : ConversationContext)
    (db : DBState) (e : String)
    (he : fx.evalRules = .error e) (hs : fx.saveMsg = .ok ()) :
    ∃ ctx2 db2,
      evaluateAndRespond fx ctx db =
        .ok ({ rtype := .error, message := evalErrorMessage, options := [],
               outcome := none, rationale := none }, ctx2, db2) ∧
      ctx2.status = ctx.status ∧
      db2.status = db.status ∧
      db2.decisionCount = db.decisionCount ∧
      ctx2.collectedInputs = ctx.collectedInputs ∧
      ctx2.messages = ctx.messages ++ [⟨.assistant, evalErrorMessage⟩] ∧
      db2.messages = db.messages ++ [⟨.assistant, evalErrorMessage⟩] := by
  refine ⟨{ ctx with messages := ctx.messages ++ [⟨.assistant, evalErrorMessage⟩] },
          { db with messages := db.messages ++ [⟨.assistant, evalErrorMessage⟩] },
          ?_, rfl, rfl, rfl, rfl, rfl, rfl⟩
  unfold evaluateAndRespond evaluateAndRespondTry saveAssistantMessageFx saveMessageFx
  rw [he, hs]

/-- Witness for the amended C5 at a concrete turn whose bridge call throws. -/
theorem evaluateAndRespond_bridge_error_witness :
    (({ evalRules := .error "boom", update := .ok (), decisionCreate := .ok (),
        saveMsg := .ok (), detect := .ok none, matchCat := .ok [],
        extract := .ok none, clarify := .ok "q" } : TurnFx).evalRules = .error "boom") ∧
    ∃ ctx2 db2,
      evaluateAndRespond
        { evalRules := .error "boom", update := .ok (), decisionCreate := .ok (),
          saveMsg := .ok (), detect := .ok none, matchCat := .ok [],
          extract := .ok none, clarify := .ok "q" }
        { jurisdiction := some "J", category := some "c", subcategory := none,
          collectedInputs := [], requiredInputs := [], messages := [], status := .active }
        { status := .active, jurisdiction := some "J", category := some "c",
          subcategory := none, collectedInputs := [], messages := [], decisionCount := 0 } =
        .ok ({ rtype := .error, message := evalErrorMessage, options := [],
               outcome := none, rationale := none }, ctx2, db2) ∧
      ctx2.status = .active ∧
      db2.status = .active ∧
      db2.decisionCount = 0 ∧
      ctx2.collectedInputs = [] ∧
      ctx2.messages = [] ++ [⟨.assistant, evalErrorMessage⟩] ∧
      db2.messages = [] ++ [⟨.assistant, evalErrorMessage⟩] :=
  ⟨rfl,
   evaluateAndRespond_bridge_error
     { evalRules := .error "boom", update := .ok (), decisionCreate := .ok (),
       saveMsg := .ok (), detect := .ok none, matchCat := .ok [],
       extract := .ok none, clarify := .ok "q" }
     { jurisdiction := some "J", category := some "c", subcategory := none,
       collectedInputs := [], requiredInputs := [], messages := [], status := .active }
     { status := .active, jurisdiction := some "J", category := some "c",
       subcategory := none, collectedInputs := [], messages := [], decisionCount := 0 }
     "boom" rfl rfl⟩

/-- Counterexample for C5 as stated: the turn's evaluation step fails — the
decision-record write throws after the bridge call and the status update
succeeded — and the turn returns the user-facing error response, but the
conversation status has already been set (and persisted) as `completed`: the
state updates were partially applied, contradicting "status unchanged, still
active". -/
theorem evaluateAndRespond_decision_write_counterexample :
    (evaluateAndRespond
      { evalRules := .ok ⟨.ALLOWED, "fine", []⟩, update := .ok (),
        decisionCreate := .error "db down", saveMsg := .ok (),
        detect := .ok none, matchCat := .ok [], extract := .ok none, clarify := .ok "q" }
      { jurisdiction := some "J", category := some "c", subcategory := none,
        collectedInputs := [], requiredInputs := [], messages := [], status := .active }
      { status := .active, jurisdiction := some "J", category := some "c",
        subcategory := none, collectedInputs := [], messages := [],
        decisionCount := 0 }).map
      (fun out => (out.1.rtype, out.1.message, out.2.1.status, out.2.2.status)) =
      .ok (.error, evalErrorMessage, .completed, .completed) := rfl

theorem mem_insertByConf (m x : RuleMatch) (l : List RuleMatch) :
    x ∈ insertByConf m l ↔ x = m ∨ x ∈ l := by
  induction l with
  | nil => simp [insertByConf]
  | cons y ys ih =>
    unfold insertByConf
    split_ifs with hc
    · simp only [List.mem_cons, ih]
      tauto
    · simp only [List.mem_cons]

theorem mem_sortByConfDesc (x : RuleMatch) (l : List RuleMatch) :
    x ∈ sortByConfDesc l ↔ x ∈ l := by
  induction l with
  | nil => simp [sortByConfDesc]
  | cons y ys ih =>
    unfold sortByConfDesc
    rw [mem_insertByConf]
    simp only [List.mem_cons, ih]

theorem sorted_insertByConf (m : RuleMatch) (l : List RuleMatch)
    (h : l.Pairwise (fun a b => b.confidence ≤ a.confidence)) :
    (insertByConf m l).Pairwise (fun a b => b.confidence ≤ a.confidence) := by
  induction l with
  | nil => simp [insertByConf]
  | cons y ys ih =>
    rw [List.pairwise_cons] at h
    obtain ⟨hy, hys⟩ := h
    unfold insertByConf
    split_ifs with hc
    · rw [List.pairwise_cons]
      refine ⟨fun z hz => ?_, ih hys⟩
      rcases (mem_insertByConf m z ys).mp hz with rfl | hz2
      · exact le_of_lt hc
      · exact hy z hz2
    · rw [List.pairwise_cons]
      refine ⟨fun z hz => ?_, List.pairwise_cons.mpr ⟨hy, hys⟩⟩
      rcases List.mem_cons.mp hz with rfl | hz2
      · exact le_of_not_lt hc
      · exact le_trans (hy z hz2) (le_of_not_lt hc)

theorem sorted_sortByConfDesc (l : List RuleMatch) :
    (sortByConfDesc l).Pairwise (fun a b => b.confidence ≤ a.confidence) := by
  induction l with
  | nil => simp [sortByConfDesc]
  | cons y ys ih => exact sorted_insertByConf y (sortByConfDesc ys) ih

theorem filter_insertByConf (m : RuleMatch) (l : List RuleMatch) (c : ℚ) :
    (insertByConf m l).filter (fun x => decide (x.confidence = c)) =
      if m.confidence = c then m :: l.filter (fun x => decide (x.confidence = c))
      else l.filter (fun x => decide (x.confidence = c)) := by
  induction l with
  | nil =>
    unfold insertByConf
    rw [List.filter_cons]
    split_ifs with h1 h2 h2 <;> simp_all
  | cons y ys ih =>
    unfold insertByConf
    by_cases hc : y.confidence > m.confidence
    · rw [if_pos hc]
      by_cases hmc : m.confidence = c
      · have hyc : ¬ y.confidence = c := by
          intro h0
          rw [h0, hmc] at hc
          exact lt_irrefl c hc
        rw [if_pos hmc, List.filter_cons, List.filter_cons,
          if_neg (by simpa using hyc), if_neg (by simpa using hyc), ih, if_pos hmc]
      · rw [if_neg hmc, List.filter_cons, List.filter_cons, ih, if_neg hmc]
    · rw [if_neg hc, List.filter_cons]
      by_cases hmc : m.confidence = c
      · rw [if_pos (by simpa using hmc), if_pos hmc]
      · rw [if_neg (by simpa using hmc), if_neg hmc]

theorem filter_sortByConfDesc (l : List RuleMatch) (c : ℚ) :
    (sortByConfDesc l).filter (fun x => decide (x.confidence = c)) =
      l.filter (fun x => decide (x.confidence = c)) := by
  induction l with
  | nil => simp [sortByConfDesc]
  | cons y ys ih =>
    unfold sortByConfDesc
    rw [filter_insertByConf, List.filter_cons, ih]
    by_cases hyc : y.confidence = c <;> simp [hyc]

theorem foldl_insertUnique_mem (xs : List String) :
    ∀ (acc : List String) (s : String),
      s ∈ xs.foldl insertUnique acc ↔ s ∈ acc ∨ s ∈ xs := by
  induction xs with
  | nil => simp
  | cons x rest ih =>
    intro acc s
    rw [List.foldl_cons, ih]
    unfold insertUnique
    split_ifs with hx
    · simp only [List.mem_cons]
      constructor
      · rintro (h | h)
        · exact Or.inl h
        · exact Or.inr (Or.inr h)
      · rintro (h | rfl | h)
        · exact Or.inl h
        · exact Or.inl hx
        · exact Or.inr h
    · simp only [List.mem_append, List.mem_singleton, List.mem_cons]
      tauto

theorem foldl_insertUnique_nodup (xs : List String) :
    ∀ acc : List String, acc.Nodup → (xs.foldl insertUnique acc).Nodup := by
  induction xs with
  | nil => simp
  | cons x rest ih =>
    intro acc hacc
    rw [List.foldl_cons]
    apply ih
    unfold insertUnique
    split_ifs with hx
    · exact hacc
    · rw [List.nodup_append]
      exact ⟨hacc, List.nodup_singleton x, by simpa using hx⟩

theorem enrichMatches_nil (ms : List RawMatch) : enrichMatches [] ms = [] := by
  induction ms with
  | nil => rfl
  | cons x rest ih => simp [enrichMatches, enrichMatch] at ih ⊢

theorem enrichMatch_spec (rulesets : List Ruleset) (raw : RawMatch) (m : RuleMatch)
    (h : enrichMatch rulesets raw = some m) :
    (∃ rs ∈ rulesets, rs.category = m.category ∧
       ∃ r ∈ rs.rules, subcatMatches m.subcategory r = true) ∧
    m.requiredInputs.Nodup ∧
    ((rulesets.map (·.category)).Nodup →
      ∀ s, s ∈ m.requiredInputs ↔
        ∃ rs ∈ rulesets, rs.category = m.category ∧
          ∃ r ∈ rs.rules, subcatMatches m.subcategory r = true ∧ s ∈ r.requiredInputs) := by
  unfold enrichMatch at h
  split_ifs at h with hconf
  rcases hfind : rulesets.find? (fun rs => rs.category == raw.category) with _ | rs <;>
    rw [hfind] at h
  · simp at h
  dsimp only at h
  split_ifs at h with hemp
  injection h with h
  have hrsmem : rs ∈ rulesets := List.mem_of_find?_eq_some hfind
  have hrscat : rs.category = raw.category := by
    have := List.find?_some hfind
    simpa using this
  have hmcat : m.category = raw.category := by rw [← h]
  have hmsub : m.subcategory = raw.subcategory := by rw [← h]
  have hmreq : m.requiredInputs =
      (((rs.rules.filter (subcatMatches raw.subcategory)).map (·.requiredInputs)).flatten).foldl
        insertUnique [] := by rw [← h]
  have hne : rs.rules.filter (subcatMatches raw.subcategory) ≠ [] := by
    intro h0
    rw [List.isEmpty_iff] at hemp
    exact hemp h0
  obtain ⟨r0, hr0⟩ := List.exists_mem_of_ne_nil _ hne
  rw [List.mem_filter] at hr0
  refine ⟨⟨rs, hrsmem, by rw [hmcat, hrscat], r0, hr0.1, by rw [hmsub]; exact hr0.2⟩, ?_, ?_⟩
  · rw [hmreq]
    exact foldl_insertUnique_nodup _ [] List.nodup_nil
  · intro hdist s
    rw [hmreq, foldl_insertUnique_mem]
    simp only [List.not_mem_nil, false_or]
    rw [List.mem_flatten]
    constructor
    · rintro ⟨vs, hvs, hsvs⟩
      rw [List.mem_map] at hvs
      obtain ⟨r, hr, hrvs⟩ := hvs
      rw [List.mem_filter] at hr
      exact ⟨rs, hrsmem, by rw [hmcat, hrscat], r, hr.1,
        by rw [hmsub]; exact hr.2, by rw [hrvs]; exact hsvs⟩
    · rintro ⟨rs2, hrs2, hcat2, r, hr, hsub, hs⟩
      have : rs2 = rs := by
        apply List.inj_on_of_nodup_map hdist hrs2 hrsmem
        rw [hcat2, hmcat, hrscat]
      subst this
      refine ⟨r.requiredInputs, ?_, hs⟩
      rw [List.mem_map]
      refine ⟨r, ?_, rfl⟩
      rw [List.mem_filter]
      exact ⟨hr, by rw [← hmsub]; exact hsub⟩

/-- C10: every match returned by `matchCategory` names a (category,
subcategory) pair matched by at least one rule of an active ruleset of the
jurisdiction (completion entries matching no stored rule are dropped); its
`requiredInputs` is the deduplicated union of the required inputs of the rules
matching that pair; and the returned list is sorted by descending confidence
with equal-confidence entries kept in completion order (the filter at each
confidence level equals the pre-sort enrichment order).  The store invariant
that at most one active ruleset exists per category is the `hdist`
precondition. -/
theorem matchCategory_spec (rulesets : List Ruleset) (parsed : Option (List RawMatch))
    (hdist : (rulesets.map (·.category)).Nodup) :
    (∀ m ∈ matchCategory rulesets parsed,
      (∃ rs ∈ rulesets, rs.category = m.category ∧
        ∃ r ∈ rs.rules, subcatMatches m.subcategory r = true) ∧
      m.requiredInputs.Nodup ∧
      (∀ s, s ∈ m.requiredInputs ↔
        ∃ rs ∈ rulesets, rs.category = m.category ∧
          ∃ r ∈ rs.rules, subcatMatches m.subcategory r = true ∧ s ∈ r.requiredInputs)) ∧
    (matchCategory rulesets parsed).Pairwise (fun a b => b.confidence ≤ a.confidence) ∧
    (∀ c : ℚ, (matchCategory rulesets parsed).filter (fun x => decide (x.confidence = c)) =
      (enrichMatches rulesets (parsed.getD [])).filter (fun x => decide (x.confidence = c))) := by
  unfold matchCategory
  rcases hre : rulesets.isEmpty with _ | _
  · rw [if_neg (by simp)]
    rcases parsed with _ | ms
    · dsimp only
      refine ⟨?_, List.Pairwise.nil, fun c => rfl⟩
      intro m hm
      exact absurd hm (List.not_mem_nil m)
    · dsimp only
      refine ⟨?_, sorted_sortByConfDesc _, fun c => filter_sortByConfDesc _ c⟩
      intro m hm
      rw [mem_sortByConfDesc, enrichMatches, List.mem_filterMap] at hm
      obtain ⟨raw, _, hraw⟩ := hm
      obtain ⟨h1, h2, h3⟩ := enrichMatch_spec rulesets raw m hraw
      exact ⟨h1, h2, h3 hdist⟩
  · rw [if_pos rfl]
    have hnil : rulesets = [] := by rwa [List.isEmpty_iff] at hre
    subst hnil
    rcases parsed with _ | ms <;>
      exact ⟨fun m hm => absurd hm (List.not_mem_nil m), List.Pairwise.nil,
        fun c => by rw [enrichMatches_nil]⟩

/-- Witness for C10 at a one-ruleset store and a single parsed completion
entry. -/
theorem matchCategory_spec_witness :
    (([⟨"animals", [⟨"animals", some "dogs", ["Can I keep a dog?"], [], ["breed"], "r1"⟩]⟩] :
        List Ruleset).map (·.category)).Nodup ∧
    ((∀ m ∈ matchCategory
        [⟨"animals", [⟨"animals", some "dogs", ["Can I keep a dog?"], [], ["breed"], "r1"⟩]⟩]
        (some [⟨"animals", some "dogs", (9/10 : ℚ)⟩]),
      (∃ rs ∈ ([⟨"animals", [⟨"animals", some "dogs", ["Can I keep a dog?"], [], ["breed"], "r1"⟩]⟩] :
          List Ruleset), rs.category = m.category ∧
        ∃ r ∈ rs.rules, subcatMatches m.subcategory r = true) ∧
      m.requiredInputs.Nodup ∧
      (∀ s, s ∈ m.requiredInputs ↔
        ∃ rs ∈ ([⟨"animals", [⟨"animals", some "dogs", ["Can I keep a dog?"], [], ["breed"], "r1"⟩]⟩] :
            List Ruleset), rs.category = m.category ∧
          ∃ r ∈ rs.rules, subcatMatches m.subcategory r = true ∧ s ∈ r.requiredInputs)) ∧
    (matchCategory
        [⟨"animals", [⟨"animals", some "dogs", ["Can I keep a dog?"], [], ["breed"], "r1"⟩]⟩]
        (some [⟨"animals", some "dogs", (9/10 : ℚ)⟩])).Pairwise
      (fun a b => b.confidence ≤ a.confidence) ∧
    (∀ c : ℚ, (matchCategory
        [⟨"animals", [⟨"animals", some "dogs", ["Can I keep a dog?"], [], ["breed"], "r1"⟩]⟩]
        (some [⟨"animals", some "dogs", (9/10 : ℚ)⟩])).filter
          (fun x => decide (x.confidence = c)) =
      (enrichMatches
        [⟨"animals", [⟨"animals", some "dogs", ["Can I keep a dog?"], [], ["breed"], "r1"⟩]⟩]
        ((some [⟨"animals", some "dogs", (9/10 : ℚ)⟩]).getD [])).filter
          (fun x => decide (x.confidence = c)))) :=
  ⟨by simp,
   matchCategory_spec
     [⟨"animals", [⟨"animals", some "dogs", ["Can I keep a dog?"], [], ["breed"], "r1"⟩]⟩]
     (some [⟨"animals", some "dogs", (9/10 : ℚ)⟩]) (by simp)⟩

/-- C8: `loadConversation` always rebuilds the context with an empty
required-input list, whatever was required before persistence; consequently a
resumed turn on a loaded conversation whose jurisdiction and category are set
computes an empty missing-input set and hands off directly to rule
evaluation, whatever subset of the originally required inputs was actually
collected. -/
theorem loadConversation_skips_required_inputs (rec : StoredConversation) (fx : TurnFx)
    (db : DBState) (msg : String) (c j : String)
    (hcat : rec.category = some c) (hjur : rec.jurisdiction = some j)
    (hsave : fx.saveMsg = .ok ()) :
    (loadConversation rec).requiredInputs = [] ∧
    missingOf (loadConversation rec) = [] ∧
    ∃ ctx2 db2,
      processMessage fx (loadConversation rec) db msg = evaluateAndRespond fx ctx2 db2 ∧
      ctx2.collectedInputs = rec.collectedInputs ∧
      ctx2.requiredInputs = [] ∧
      ctx2.category = rec.category ∧
      db2.messages = db.messages ++ [⟨.user, msg⟩] := by
  refine ⟨rfl, rfl,
    { loadConversation rec with
        messages := (loadConversation rec).messages ++ [⟨.user, msg⟩] },
    { db with messages := db.messages ++ [⟨.user, msg⟩] }, ?_, rfl, rfl, rfl, rfl⟩
  unfold processMessage saveMessageFx
  rw [hsave]
  dsimp only [loadConversation]
  rw [hjur]
  unfold processWithJurisdiction
  dsimp only
  rw [hcat]
  unfold collectInputs
  dsimp only [missingOf]
  rfl

/-- Witness for C8: a stored conversation with jurisdiction and category set
but none of its (formerly required) inputs collected still goes straight to
evaluation on the next turn. -/
theorem loadConversation_skips_required_inputs_witness :
    ({ jurisdiction := some "J", category := some "animals", subcategory := none,
       collectedInputs := [("x", JSValue.bool true)], messages := [],
       status := .active } : StoredConversation).category = some "animals" ∧
    ((loadConversation
        { jurisdiction := some "J", category := some "animals", subcategory := none,
          collectedInputs := [("x", JSValue.bool true)], messages := [],
          status := .active }).requiredInputs = [] ∧
     missingOf (loadConversation
        { jurisdiction := some "J", category := some "animals", subcategory := none,
          collectedInputs := [("x", JSValue.bool true)], messages := [],
          status := .active }) = [] ∧
     ∃ ctx2 db2,
       processMessage
         { evalRules := .ok ⟨.ALLOWED, "ok", []⟩, update := .ok (), decisionCreate := .ok (),
           saveMsg := .ok (), detect := .ok none, matchCat := .ok [],
           extract := .ok none, clarify := .ok "q" }
         (loadConversation
           { jurisdiction := some "J", category := some "animals", subcategory := none,
             collectedInputs := [("x", JSValue.bool true)], messages := [],
             status := .active })
         { status := .active, jurisdiction := some "J", category := some "animals",
           subcategory := none, collectedInputs := [("x", JSValue.bool true)],
           messages := [], decisionCount := 0 }
         "hello" =
         evaluateAndRespond
           { evalRules := .ok ⟨.ALLOWED, "ok", []⟩, update := .ok (), decisionCreate := .ok (),
             saveMsg := .ok (), detect := .ok none, matchCat := .ok [],
             extract := .ok none, clarify := .ok "q" }
           ctx2 db2 ∧
       ctx2.collectedInputs =
         ({ jurisdiction := some "J", category := some "animals", subcategory := none,
            collectedInputs := [("x", JSValue.bool true)], messages := [],
            status := .active } : StoredConversation).collectedInputs ∧
       ctx2.requiredInputs = [] ∧
       ctx2.category =
         ({ jurisdiction := some "J", category := some "animals", subcategory := none,
            collectedInputs := [("x", JSValue.bool true)], messages := [],
            status := .active } : StoredConversation).category ∧
       db2.messages =
         ({ status := .active, jurisdiction := some "J", category := some "animals",
            subcategory := none, collectedInputs := [("x", JSValue.bool true)],
            messages := [], decisionCount := 0 } : DBState).messages ++ [⟨.user, "hello"⟩]) :=
  ⟨rfl,
   loadConversation_skips_required_inputs
     { jurisdiction := some "J", category := some "animals", subcategory := none,
       collectedInputs := [("x", JSValue.bool true)], messages := [],
       status := .active }
     { evalRules := .ok ⟨.ALLOWED, "ok", []⟩, update := .ok (), decisionCreate := .ok (),
       saveMsg := .ok (), detect := .ok none, matchCat := .ok [],
       extract := .ok none, clarify := .ok "q" }
     { status := .active, jurisdiction := some "J", category := some "animals",
       subcategory := none, collectedInputs := [("x", JSValue.bool true)],
       messages := [], decisionCount := 0 }
     "hello" "animals" "J" rfl rfl rfl⟩

end Civix
